import Mathlib

/-!
Shallow embedding of `src/main.py` (ydhp): a ROM scanner that strips an
optional 512-byte header, searches for 4-byte windows with signed byte
differences (28, -7, 12), shifts each matched window by 0xA7 mod 256,
decodes the result as cp932 text, normalizes the text (width fold, then
katakana→hiragana fold), and assembles a report string.

Bytes are modelled as `Nat` (values < 256 where a claim needs it), byte
strings as `List Nat`, Python `str` as Lean `String` (a list of Unicode
scalar values). The cp932 codec and `unicodedata.normalize("NFKC", ·)`
are Python library code, not part of the repository; they are modelled
from the spec (see the doc comments on `cp932DecodeChars` and
`widthFoldCode`).
-/

namespace Ydhp

set_option maxRecDepth 16384

/-- Embeds `to_signed` from src/main.py: converts an integer in 0..255 to a
signed 8-bit value (`b if b < 128 else b - 256`). -/
def to_signed (b : Nat) : Int :=
  if b < 128 then (b : Int) else (b : Int) - 256

/-- Embeds `detect_header` from src/main.py: if the length is 512 modulo
0x2000 and the first 512 bytes are all 0x00 or 0xFF, drop the first 512
bytes; otherwise return the input unchanged. (The `print` notice is an
I/O side effect and is not modelled.) -/
def detect_header (rom_data : List Nat) : List Nat :=
  if rom_data.length % 0x2000 = 512 then
    if (rom_data.take 512).all (fun b => b == 0x00 || b == 0xFF) then
      rom_data.drop 512
    else rom_data
  else rom_data

/-- The body of the loop in `search_candidates` from src/main.py at index
`i`: names the four bytes `a b c d` of the slice `rom_data[i:i+4]` and
keeps `(i, slice)` when the three signed differences are 28, -7 and 12. -/
def checkWindow (rom_data : List Nat) (i : Nat) : Option (Nat × List Nat) :=
  let a := rom_data.getD i 0
  let b := rom_data.getD (i + 1) 0
  let c := rom_data.getD (i + 2) 0
  let d := rom_data.getD (i + 3) 0
  if to_signed a - to_signed b = 28 ∧ to_signed b - to_signed c = -7 ∧
      to_signed c - to_signed d = 12 then
    some (i, [a, b, c, d])
  else none

/-- Embeds `search_candidates` from src/main.py: run `checkWindow` for each
`i` in `range(len(rom_data) - 3)` and collect the matches in order. -/
def search_candidates (rom_data : List Nat) : List (Nat × List Nat) :=
  (List.range (rom_data.length - 3)).filterMap (checkWindow rom_data)

/-- Embeds `convert_sequence` from src/main.py: add the fixed offset 0xA7 to
each byte, truncated to 8 bits (`(b + offset) & 0xFF`, i.e. mod 256). -/
def convert_sequence (seq : List Nat) : List Nat :=
  seq.map (fun b => (b + 0xA7) % 256)

/-- The inverse byte transform stated by the spec for the round-trip
property: `(x - 0xA7) mod 256`, computed in integer arithmetic and mapped
back to a natural number. (Spec-side definition, for comparison with
`convert_sequence`.) -/
def inverse_byte (x : Nat) : Nat :=
  (((x : Int) - 0xA7) % 256).toNat

/-- The spec's inverse transform applied byte-wise to a window.
(Spec-side definition, for comparison with `convert_sequence`.) -/
def inverse_transform (seq : List Nat) : List Nat :=
  seq.map inverse_byte

/-- The sentinel returned by `decode_shift_jis` when the bytes are not a
valid cp932 sequence. -/
def undecodableMarker : String := "<デコード不可>"

/-- Is `b` a cp932 lead byte of a double-byte character (0x81..0x9F or
0xE0..0xFC)? -/
def cp932IsLead (b : Nat) : Bool :=
  (0x81 ≤ b && b ≤ 0x9F) || (0xE0 ≤ b && b ≤ 0xFC)

/-- Is `b` a valid cp932 trail byte (0x40..0x7E or 0x80..0xFC)? -/
def cp932IsTrail (b : Nat) : Bool :=
  (0x40 ≤ b && b ≤ 0x7E) || (0x80 ≤ b && b ≤ 0xFC)

/-- Modelled from the spec: the character a cp932 lead/trail pair decodes
to. The real per-pair table lives in Python's codec data, not in the
repository; the model sends each pair to a distinct CJK codepoint, which
preserves what the claims need (decoding succeeds exactly on well-formed
byte sequences). -/
def cp932Pair (lead trail : Nat) : Char :=
  Char.ofNat (0x4E00 + (lead * 256 + trail) % 0x2000)

/-- Modelled from the spec: the cp932 decoder used by
`data.decode("cp932")` is Python library code, not part of the repository.
Per the spec, ASCII-range bytes map to Latin characters, bytes 0xA1..0xDF
are half-width katakana (U+FF61..U+FF9F), a lead byte (0x81..0x9F,
0xE0..0xFC) followed by a valid trail byte (0x40..0x7E, 0x80..0xFC)
decodes as one double-byte character, and anything else — an unassigned
byte value, or a lead byte whose required second byte is missing or
invalid — makes the whole decode fail. -/
def cp932DecodeChars : List Nat → Option (List Char)
  | [] => some []
  | b :: rest =>
    if b < 0x80 then
      (cp932DecodeChars rest).map (fun cs => Char.ofNat b :: cs)
    else if 0xA1 ≤ b ∧ b ≤ 0xDF then
      (cp932DecodeChars rest).map (fun cs => Char.ofNat (0xFF61 + (b - 0xA1)) :: cs)
    else if cp932IsLead b then
      match rest with
      | [] => none
      | t :: rest2 =>
        if cp932IsTrail t then
          (cp932DecodeChars rest2).map (fun cs => cp932Pair b t :: cs)
        else none
    else none

/-- Embeds `decode_shift_jis` from src/main.py: try to decode as cp932 and
return the decoded text; on any failure return the sentinel
`"<デコード不可>"` instead of propagating the error. -/
def decode_shift_jis (data : List Nat) : String :=
  match cp932DecodeChars data with
  | some cs => String.mk cs
  | none => undecodableMarker

/-- Modelled from the spec: the per-character NFKC compatibility mappings
of the half-width katakana part of the Halfwidth and Fullwidth Forms block
(U+FF61..U+FF9F), each sent to its canonical full-width counterpart. -/
def halfwidthKanaTable : List (Nat × Nat) :=
  [(0xFF61, 0x3002), (0xFF62, 0x300C), (0xFF63, 0x300D), (0xFF64, 0x3001),
   (0xFF65, 0x30FB), (0xFF66, 0x30F2), (0xFF67, 0x30A1), (0xFF68, 0x30A3),
   (0xFF69, 0x30A5), (0xFF6A, 0x30A7), (0xFF6B, 0x30A9), (0xFF6C, 0x30E3),
   (0xFF6D, 0x30E5), (0xFF6E, 0x30E7), (0xFF6F, 0x30C3), (0xFF70, 0x30FC),
   (0xFF71, 0x30A2), (0xFF72, 0x30A4), (0xFF73, 0x30A6), (0xFF74, 0x30A8),
   (0xFF75, 0x30AA), (0xFF76, 0x30AB), (0xFF77, 0x30AD), (0xFF78, 0x30AF),
   (0xFF79, 0x30B1), (0xFF7A, 0x30B3), (0xFF7B, 0x30B5), (0xFF7C, 0x30B7),
   (0xFF7D, 0x30B9), (0xFF7E, 0x30BB), (0xFF7F, 0x30BD), (0xFF80, 0x30BF),
   (0xFF81, 0x30C1), (0xFF82, 0x30C4), (0xFF83, 0x30C6), (0xFF84, 0x30C8),
   (0xFF85, 0x30CA), (0xFF86, 0x30CB), (0xFF87, 0x30CC), (0xFF88, 0x30CD),
   (0xFF89, 0x30CE), (0xFF8A, 0x30CF), (0xFF8B, 0x30D2), (0xFF8C, 0x30D5),
   (0xFF8D, 0x30D8), (0xFF8E, 0x30DB), (0xFF8F, 0x30DE), (0xFF90, 0x30DF),
   (0xFF91, 0x30E0), (0xFF92, 0x30E1), (0xFF93, 0x30E2), (0xFF94, 0x30E4),
   (0xFF95, 0x30E6), (0xFF96, 0x30E8), (0xFF97, 0x30E9), (0xFF98, 0x30EA),
   (0xFF99, 0x30EB), (0xFF9A, 0x30EC), (0xFF9B, 0x30ED), (0xFF9C, 0x30EF),
   (0xFF9D, 0x30F3), (0xFF9E, 0x309B), (0xFF9F, 0x309C)]

/-- Modelled from the spec: the per-codepoint width fold performed by NFKC
on the Halfwidth and Fullwidth Forms block. Full-width ASCII variants
U+FF01..U+FF5E fold to U+0021..U+007E; half-width katakana fold through
`halfwidthKanaTable`; every other codepoint is left unchanged. -/
def widthFoldCode (n : Nat) : Nat :=
  if 0xFF01 ≤ n ∧ n ≤ 0xFF5E then n - 0xFEE0
  else
    match halfwidthKanaTable.find? (fun p => p.1 == n) with
    | some p => p.2
    | none => n

/-- The width fold of one character: `Char`-level wrapper around
`widthFoldCode`. -/
def widthFoldChar (ch : Char) : Char :=
  Char.ofNat (widthFoldCode ch.toNat)

/-- Modelled from the spec: embeds `to_fullwidth` from src/main.py, whose
body `unicodedata.normalize("NFKC", s)` is Python library code. Per the
spec it is an NFKC-equivalent width fold applied per character. -/
def to_fullwidth (s : String) : String :=
  String.mk (s.data.map widthFoldChar)

/-- The kana fold of one character, the body of the generator expression
in `katakana_to_hiragana` from src/main.py:
`chr(ord(ch) - 0x60) if 0x30A1 <= ord(ch) <= 0x30F6 else ch`. -/
def kanaFoldChar (ch : Char) : Char :=
  if 0x30A1 ≤ ch.toNat ∧ ch.toNat ≤ 0x30F6 then Char.ofNat (ch.toNat - 0x60)
  else ch

/-- Embeds `katakana_to_hiragana` from src/main.py: every character with a
code point in U+30A1..U+30F6 is moved down by 0x60; everything else is
kept. -/
def katakana_to_hiragana (s : String) : String :=
  String.mk (s.data.map kanaFoldChar)

/-- One upper-case hexadecimal digit (0-9, A-F). -/
def hexDigit (n : Nat) : Char :=
  if n < 10 then Char.ofNat (48 + n) else Char.ofNat (55 + n)

/-- The upper-case hexadecimal digits of `n`, most significant first, as
produced by Python's `format(n, "X")` (the single digit "0" for zero). -/
def hexChars (n : Nat) : List Char :=
  if _h : n < 16 then [hexDigit n]
  else hexChars (n / 16) ++ [hexDigit (n % 16)]
  termination_by n
  decreasing_by
    exact Nat.div_lt_self (by omega) (by omega)

/-- Embeds the `f"0x{offset:X}"` / `f"{b:02X}"` digit part: upper-case hex
with no padding. -/
def toHexUpper (n : Nat) : String :=
  String.mk (hexChars n)

/-- Embeds `f"{b:02X}"`: upper-case hex padded to at least two digits. -/
def hex02 (n : Nat) : String :=
  if n < 16 then String.mk ('0' :: hexChars n) else String.mk (hexChars n)

/-- Embeds `" ".join(f"{b:02X}" for b in seq)` from src/main.py. -/
def hexBytes (seq : List Nat) : String :=
  String.intercalate (" ") (seq.map hex02)

/-- Embeds the count header line built in `main`:
`f"検出された候補数: {len(candidates)}\n"`. -/
def countHeaderLine (n : Nat) : String :=
  "検出された候補数: " ++ toString n ++ "\n"

/-- Embeds the per-candidate block appended to `output_lines` in `main`:
the offset in hex, the original and transformed windows in two-digit hex,
and the decoded, width-folded and kana-folded text renderings. -/
def candidateBlock (offset : Nat) (seq : List Nat) : String :=
  let conv := convert_sequence seq
  let decoded := decode_shift_jis conv
  let fullwidth := to_fullwidth decoded
  let hiragana := katakana_to_hiragana fullwidth
  "オフセット 0x" ++ toHexUpper offset ++ ":\n" ++
  "  元バイト列    : " ++ hexBytes seq ++ "\n" ++
  "  変換後バイト列: " ++ hexBytes conv ++ "\n" ++
  "  Shift-JIS文字 : " ++ decoded ++ "\n" ++
  "  全角表示      : " ++ fullwidth ++ "\n" ++
  "  ひらがな表示  : " ++ hiragana ++ "\n"

/-- Embeds the report assembly in `main`: the count header line followed by
one block per candidate, joined by `"\n".join(output_lines)`. -/
def build_report (cands : List (Nat × List Nat)) : String :=
  String.intercalate ("\n")
    (countHeaderLine cands.length :: cands.map (fun p => candidateBlock p.1 p.2))

/-- Embeds the core sequence of `main` on an already-read ROM image:
header detection, candidate search, report assembly. -/
def run_pipeline (rom : List Nat) : String :=
  build_report (search_candidates (detect_header rom))

/-- The core pipeline of `main` as a big-step relation: `MainRun rom out`
holds when one run of `main` on ROM bytes `rom` produces the report string
`out`. The constructor chains the stages in the order `main` executes
them. -/
inductive MainRun : List Nat → String → Prop where
  | run (rom payload : List Nat) (cands : List (Nat × List Nat)) (out : String) :
      payload = detect_header rom →
      cands = search_candidates payload →
      out = build_report cands →
      MainRun rom out

/-! ## Helper lemmas -/

/-- A codepoint below the surrogate range survives the `Char.ofNat` /
`Char.toNat` round trip. -/
theorem toNat_ofNat_of_lt {n : Nat} (h : n < 0xD800) :
    (Char.ofNat n).toNat = n := by
  rw [Char.ofNat, dif_pos (Or.inl h)]
  rfl

/-- Characterization of one loop step of the scanner: `checkWindow` fires
at `i` exactly when the three signed differences match, and then returns
`i` paired with the 4-byte slice at `i`. -/
theorem checkWindow_eq_some (rom : List Nat) (i : Nat) (p : Nat × List Nat) :
    checkWindow rom i = some p ↔
      p = (i, [rom.getD i 0, rom.getD (i + 1) 0, rom.getD (i + 2) 0,
               rom.getD (i + 3) 0]) ∧
      to_signed (rom.getD i 0) - to_signed (rom.getD (i + 1) 0) = 28 ∧
      to_signed (rom.getD (i + 1) 0) - to_signed (rom.getD (i + 2) 0) = -7 ∧
      to_signed (rom.getD (i + 2) 0) - to_signed (rom.getD (i + 3) 0) = 12 := by
  unfold checkWindow
  show (if to_signed (rom.getD i 0) - to_signed (rom.getD (i + 1) 0) = 28 ∧
          to_signed (rom.getD (i + 1) 0) - to_signed (rom.getD (i + 2) 0) = -7 ∧
          to_signed (rom.getD (i + 2) 0) - to_signed (rom.getD (i + 3) 0) = 12 then
        some (i, [rom.getD i 0, rom.getD (i + 1) 0, rom.getD (i + 2) 0,
                  rom.getD (i + 3) 0])
      else none) = some p ↔ _
  split
  · rename_i hc
    constructor
    · intro h
      exact ⟨(Option.some_inj.mp h).symm, hc⟩
    · rintro ⟨hp, -⟩
      rw [hp]
  · rename_i hc
    constructor
    · intro h
      exact absurd h (by simp)
    · rintro ⟨-, hdiffs⟩
      exact absurd hdiffs hc

/-- Membership in the scanner output: offset `i` with window `w` is
reported exactly when the window fits (`i + 4 ≤ L`), `w` is the 4-byte
slice at `i`, and the three signed differences are 28, -7 and 12. -/
theorem mem_search_candidates (rom : List Nat) (i : Nat) (w : List Nat) :
    (i, w) ∈ search_candidates rom ↔
      i + 4 ≤ rom.length ∧
      w = [rom.getD i 0, rom.getD (i + 1) 0, rom.getD (i + 2) 0,
           rom.getD (i + 3) 0] ∧
      to_signed (rom.getD i 0) - to_signed (rom.getD (i + 1) 0) = 28 ∧
      to_signed (rom.getD (i + 1) 0) - to_signed (rom.getD (i + 2) 0) = -7 ∧
      to_signed (rom.getD (i + 2) 0) - to_signed (rom.getD (i + 3) 0) = 12 := by
  unfold search_candidates
  rw [List.mem_filterMap]
  constructor
  · rintro ⟨j, hj, hf⟩
    rw [List.mem_range] at hj
    rw [checkWindow_eq_some] at hf
    obtain ⟨hp, hd⟩ := hf
    have hij : i = j := congrArg Prod.fst hp
    subst hij
    have hw : w = _ := congrArg Prod.snd hp
    exact ⟨by omega, hw, hd⟩
  · rintro ⟨hlen, hw, hd⟩
    refine ⟨i, ?_, ?_⟩
    · rw [List.mem_range]
      omega
    · rw [checkWindow_eq_some]
      exact ⟨by rw [hw], hd⟩

/-- The scanner's output offsets are strictly increasing. -/
theorem search_candidates_pairwise (rom : List Nat) :
    (search_candidates rom).Pairwise (fun p q => p.1 < q.1) := by
  unfold search_candidates
  rw [List.pairwise_filterMap]
  refine (List.pairwise_lt_range _).imp ?_
  intro a b hab
  intro p hp q hq
  rw [Option.mem_def, checkWindow_eq_some] at hp hq
  have hpa : p.1 = a := by rw [hp.1]
  have hqb : q.1 = b := by rw [hq.1]
  omega

/-- Every byte of `convert_sequence` output round-trips through the spec's
inverse transform, and conversely, for byte values below 256. -/
theorem inverse_byte_round :
    ∀ b < 256, inverse_byte ((b + 0xA7) % 256) = b ∧
      (inverse_byte b + 0xA7) % 256 = b ∧ (b + 0xA7) % 256 < 256 := by
  decide

/-! ## Claim theorems -/

/-- C1: for every byte sequence `data` and offset `i` with `i + 4 ≤ L`,
the scanner includes `i` (paired with its raw 4-byte window) exactly when
the signed differences of the window bytes are 28, -7 and 12 under the
two's-complement mapping `to_signed`; and the reported offsets are
strictly ascending. -/
theorem search_candidates_correct (data : List Nat) :
    (∀ i w, (i, w) ∈ search_candidates data ↔
      i + 4 ≤ data.length ∧
      w = [data.getD i 0, data.getD (i + 1) 0, data.getD (i + 2) 0,
           data.getD (i + 3) 0] ∧
      to_signed (data.getD i 0) - to_signed (data.getD (i + 1) 0) = 28 ∧
      to_signed (data.getD (i + 1) 0) - to_signed (data.getD (i + 2) 0) = -7 ∧
      to_signed (data.getD (i + 2) 0) - to_signed (data.getD (i + 3) 0) = 12) ∧
    (search_candidates data).Pairwise (fun p q => p.1 < q.1) :=
  ⟨fun i w => mem_search_candidates data i w, search_candidates_pairwise data⟩

/-- C1 witness: the spec's concrete example window `[0x00, 0xE4, 0xEB,
0xDF]` (signed values 0, -28, -21, -33) is reported at offset 0. -/
theorem search_candidates_correct_witness :
    (0, [0x00, 0xE4, 0xEB, 0xDF]) ∈ search_candidates [0x00, 0xE4, 0xEB, 0xDF] :=
  ((search_candidates_correct [0x00, 0xE4, 0xEB, 0xDF]).1 0
    [0x00, 0xE4, 0xEB, 0xDF]).mpr (by decide)

/-- C2: `detect_header` strips exactly the first 512 bytes when the length
is 512 mod 8192 and the first 512 bytes are all 0x00 or 0xFF, and returns
the input unchanged in every other case (it is a total function, so it
never fails). -/
theorem detect_header_correct (rom : List Nat) :
    ((rom.length % 8192 = 512 ∧ ∀ b ∈ rom.take 512, b = 0x00 ∨ b = 0xFF) →
      detect_header rom = rom.drop 512 ∧
      (detect_header rom).length + 512 = rom.length) ∧
    (¬(rom.length % 8192 = 512 ∧ ∀ b ∈ rom.take 512, b = 0x00 ∨ b = 0xFF) →
      detect_header rom = rom) := by
  constructor
  · rintro ⟨h1, h2⟩
    have hall : (rom.take 512).all (fun b => b == 0x00 || b == 0xFF) = true := by
      rw [List.all_eq_true]
      intro b hb
      rcases h2 b hb with h | h <;> simp [h]
    have hlen : 512 ≤ rom.length := by
      by_cases hc : rom.length < 8192
      · rw [Nat.mod_eq_of_lt hc] at h1
        omega
      · omega
    rw [detect_header, if_pos h1, if_pos hall]
    refine ⟨rfl, ?_⟩
    rw [List.length_drop]
    omega
  · intro hn
    rw [detect_header]
    by_cases h1 : rom.length % 8192 = 512
    · rw [if_pos h1]
      have hne : ¬((rom.take 512).all (fun b => b == 0x00 || b == 0xFF) = true) := by
        intro hall
        apply hn
        refine ⟨h1, fun b hb => ?_⟩
        have hbb := List.all_eq_true.mp hall b hb
        simpa using hbb
      rw [if_neg hne]
    · rw [if_neg h1]

/-- C2 witness: an all-zero input of exactly 512 bytes satisfies the
header condition and is stripped to the empty payload. -/
theorem detect_header_correct_witness :
    detect_header (List.replicate 512 0) = (List.replicate 512 0).drop 512 ∧
    (detect_header (List.replicate 512 0)).length + 512 =
      (List.replicate 512 0).length :=
  (detect_header_correct (List.replicate 512 0)).1 (by decide)

/-- C3: `convert_sequence` adds 0xA7 mod 256 byte-wise; on byte values
below 256 it round-trips with the spec's inverse transform `(x - 0xA7)
mod 256` in both directions, preserves window length, produces bytes
below 256, and is injective — a total bijection on 4-byte windows. -/
theorem convert_sequence_bijective :
    (∀ b, b < 256 → inverse_byte ((b + 0xA7) % 256) = b ∧
      (inverse_byte b + 0xA7) % 256 = b) ∧
    (∀ w, (∀ b ∈ w, b < 256) →
      inverse_transform (convert_sequence w) = w ∧
      convert_sequence (inverse_transform w) = w ∧
      (convert_sequence w).length = w.length ∧
      ∀ b ∈ convert_sequence w, b < 256) ∧
    (∀ w1 w2, (∀ b ∈ w1, b < 256) → (∀ b ∈ w2, b < 256) →
      convert_sequence w1 = convert_sequence w2 → w1 = w2) := by
  have hback : ∀ w, (∀ b ∈ w, b < 256) →
      inverse_transform (convert_sequence w) = w := by
    intro w hw
    unfold inverse_transform convert_sequence
    rw [List.map_map]
    conv_rhs => rw [← List.map_id w]
    apply List.map_congr_left
    intro b hb
    exact (inverse_byte_round b (hw b hb)).1
  refine ⟨fun b hb => ⟨(inverse_byte_round b hb).1, (inverse_byte_round b hb).2.1⟩,
    fun w hw => ⟨hback w hw, ?_, by simp [convert_sequence], ?_⟩, ?_⟩
  · unfold inverse_transform convert_sequence
    rw [List.map_map]
    conv_rhs => rw [← List.map_id w]
    apply List.map_congr_left
    intro b hb
    exact (inverse_byte_round b (hw b hb)).2.1
  · intro b hb
    rw [convert_sequence, List.mem_map] at hb
    obtain ⟨x, hx, hxb⟩ := hb
    rw [← hxb]
    exact Nat.mod_lt _ (by omega)
  · intro w1 w2 h1 h2 heq
    have := congrArg inverse_transform heq
    rwa [hback w1 h1, hback w2 h2] at this

/-- C3 witness: the spec's example window converts to `[0xA7, 0x8B, 0x92,
0x86]` and round-trips through the inverse transform. -/
theorem convert_sequence_bijective_witness :
    inverse_transform (convert_sequence [0x00, 0xE4, 0xEB, 0xDF]) =
      [0x00, 0xE4, 0xEB, 0xDF] :=
  (convert_sequence_bijective.2.1 [0x00, 0xE4, 0xEB, 0xDF] (by decide)).1

/-- C4: `decode_shift_jis` is total; on every byte sequence it returns the
cp932 decoding when the bytes decode, and the sentinel marker when they do
not — decoding failure is never propagated. -/
theorem decode_shift_jis_total (data : List Nat) :
    (∃ cs, cp932DecodeChars data = some cs ∧
      decode_shift_jis data = String.mk cs) ∨
    (cp932DecodeChars data = none ∧
      decode_shift_jis data = undecodableMarker) := by
  cases h : cp932DecodeChars data with
  | some cs =>
    left
    exact ⟨cs, rfl, by simp [decode_shift_jis, h]⟩
  | none =>
    right
    exact ⟨rfl, by simp [decode_shift_jis, h]⟩

/-- Codepoints below U+FF01 are untouched by the width fold. -/
theorem widthFoldCode_eq_self_of_lt {m : Nat} (h : m < 0xFF01) :
    widthFoldCode m = m := by
  unfold widthFoldCode
  rw [if_neg (by omega)]
  have hfind : halfwidthKanaTable.find? (fun p => p.1 == m) = none := by
    rw [List.find?_eq_none]
    intro x hx
    have hall : halfwidthKanaTable.all (fun p => 0xFF61 ≤ p.1) = true := by decide
    have hkey := List.all_eq_true.mp hall x hx
    simp only [decide_eq_true_eq] at hkey
    simp only [beq_iff_eq]
    omega
  rw [hfind]

/-- The width fold either fixes a codepoint, or sends it to a codepoint
that is both a valid scalar value and below U+FF01 (hence a fixed point of
the fold). -/
theorem widthFoldCode_cases (n : Nat) :
    widthFoldCode n = n ∨
    (widthFoldCode n < 0xD800 ∧ widthFoldCode n < 0xFF01) := by
  by_cases h1 : 0xFF01 ≤ n ∧ n ≤ 0xFF5E
  · right
    rw [widthFoldCode, if_pos h1]
    omega
  · rw [widthFoldCode, if_neg h1]
    cases hfind : halfwidthKanaTable.find? (fun p => p.1 == n) with
    | none =>
      left
      rfl
    | some p =>
      right
      show p.2 < 0xD800 ∧ p.2 < 0xFF01
      have hp : p ∈ halfwidthKanaTable := List.mem_of_find?_eq_some hfind
      have hall : halfwidthKanaTable.all (fun q => q.2 < 0x3100) = true := by decide
      have hval := List.all_eq_true.mp hall p hp
      simp only [decide_eq_true_eq] at hval
      omega

/-- The width fold of a single character is idempotent. -/
theorem widthFoldChar_idem (ch : Char) :
    widthFoldChar (widthFoldChar ch) = widthFoldChar ch := by
  unfold widthFoldChar
  rcases widthFoldCode_cases ch.toNat with h | ⟨h1, h2⟩
  · rw [h, Char.ofNat_toNat, h, Char.ofNat_toNat]
  · rw [toNat_ofNat_of_lt h1, widthFoldCode_eq_self_of_lt h2]

/-- The kana fold of a single character is idempotent: a folded katakana
lands in the hiragana block U+3041..U+3096, strictly below U+30A1, so the
second pass keeps it. -/
theorem kanaFoldChar_idem (ch : Char) :
    kanaFoldChar (kanaFoldChar ch) = kanaFoldChar ch := by
  unfold kanaFoldChar
  by_cases h : 0x30A1 ≤ ch.toNat ∧ ch.toNat ≤ 0x30F6
  · rw [if_pos h]
    have ht : (Char.ofNat (ch.toNat - 0x60)).toNat = ch.toNat - 0x60 :=
      toNat_ofNat_of_lt (by omega)
    rw [if_neg]
    rw [ht]
    omega
  · rw [if_neg h, if_neg h]

/-- C5: for every string, the kana fold keeps the length, maps each
character with codepoint in U+30A1..U+30F6 to the codepoint exactly 0x60
lower, and keeps every other character unchanged. -/
theorem katakana_to_hiragana_correct (s : String) (i : Nat)
    (h : i < s.data.length) :
    (katakana_to_hiragana s).data.length = s.data.length ∧
    ((0x30A1 ≤ (s.data.get ⟨i, h⟩).toNat ∧ (s.data.get ⟨i, h⟩).toNat ≤ 0x30F6) →
      ((katakana_to_hiragana s).data.getD i default).toNat =
        (s.data.get ⟨i, h⟩).toNat - 0x60) ∧
    (¬(0x30A1 ≤ (s.data.get ⟨i, h⟩).toNat ∧ (s.data.get ⟨i, h⟩).toNat ≤ 0x30F6) →
      (katakana_to_hiragana s).data.getD i default = s.data.get ⟨i, h⟩) := by
  have hdata : (katakana_to_hiragana s).data = s.data.map kanaFoldChar := rfl
  have hlen : (katakana_to_hiragana s).data.length = s.data.length := by
    rw [hdata, List.length_map]
  have hmap : i < (s.data.map kanaFoldChar).length := by
    rw [List.length_map]
    exact h
  have hget : (katakana_to_hiragana s).data.getD i default =
      kanaFoldChar (s.data.get ⟨i, h⟩) := by
    rw [hdata, List.getD_eq_getElem _ _ hmap, List.getElem_map,
      List.get_eq_getElem]
  refine ⟨hlen, ?_, ?_⟩
  · intro hk
    rw [hget, kanaFoldChar, if_pos hk]
    exact toNat_ofNat_of_lt (by omega)
  · intro hk
    rw [hget, kanaFoldChar, if_neg hk]

/-- C5 witness: katakana ア (U+30A2) folds to codepoint U+3042 (hiragana
あ), 0x60 lower. -/
theorem katakana_to_hiragana_correct_witness :
    ((katakana_to_hiragana "ア").data.getD 0 default).toNat =
      (("ア" : String).data.get ⟨0, by decide⟩).toNat - 0x60 :=
  (katakana_to_hiragana_correct "ア" 0 (by decide)).2.1 (by decide)

/-- C6: both normalization passes are idempotent on every string: the
width fold (the spec-modelled NFKC pass) and the kana fold each give the
same result when applied twice. -/
theorem normalization_idempotent (s : String) :
    to_fullwidth (to_fullwidth s) = to_fullwidth s ∧
    katakana_to_hiragana (katakana_to_hiragana s) = katakana_to_hiragana s := by
  constructor
  · show String.mk ((s.data.map widthFoldChar).map widthFoldChar) =
      String.mk (s.data.map widthFoldChar)
    rw [List.map_map]
    congr 1
    apply List.map_congr_left
    intro ch _
    exact widthFoldChar_idem ch
  · show String.mk ((s.data.map kanaFoldChar).map kanaFoldChar) =
      String.mk (s.data.map kanaFoldChar)
    rw [List.map_map]
    congr 1
    apply List.map_congr_left
    intro ch _
    exact kanaFoldChar_idem ch

/-- C7 counterexample: the sentinel `"<デコード不可>"` is not left unchanged
by the normalization chain — its katakana characters デ, コ, ド lie in
U+30A1..U+30F6 and are moved by the kana fold. -/
theorem sentinel_not_normalization_fixed :
    katakana_to_hiragana (to_fullwidth undecodableMarker) ≠
      undecodableMarker := by
  decide

/-- C7 amended: the width fold leaves the sentinel unchanged (so the
decoded and width-folded renderings equal the sentinel), but the kana fold
maps it to `"<でこーど不可>"`, so the kana-folded rendering differs from
the sentinel. -/
theorem sentinel_normalization :
    to_fullwidth undecodableMarker = undecodableMarker ∧
    katakana_to_hiragana (to_fullwidth undecodableMarker) = "<でこーど不可>" := by
  constructor
  · decide
  · decide

/-- C8: on input shorter than 4 bytes the scanner returns no candidates,
and the assembled report is exactly the count header stating 0
candidates. -/
theorem short_input_report (rom : List Nat) (h : rom.length < 4) :
    search_candidates rom = [] ∧
    build_report (search_candidates rom) = "検出された候補数: 0\n" := by
  have h3 : rom.length - 3 = 0 := by omega
  have hempty : search_candidates rom = [] := by
    rw [search_candidates, h3]
    rfl
  refine ⟨hempty, ?_⟩
  rw [hempty]
  decide

/-- C8 witness: the 3-byte input `[1, 2, 3]` yields no candidates and the
0-candidate report. -/
theorem short_input_report_witness :
    search_candidates [1, 2, 3] = [] ∧
    build_report (search_candidates [1, 2, 3]) = "検出された候補数: 0\n" :=
  short_input_report [1, 2, 3] (by decide)

/-- C9: every reported candidate has a window of exactly 4 bytes and an
offset below `L - 3`; offsets are strictly increasing; and no match is
dropped — every offset whose window satisfies the three signed differences
is reported, overlapping or not. -/
theorem candidate_invariants (rom : List Nat) :
    (∀ p ∈ search_candidates rom,
      p.2.length = 4 ∧ p.1 < rom.length - 3) ∧
    (search_candidates rom).Pairwise (fun p q => p.1 < q.1) ∧
    (∀ i, i + 4 ≤ rom.length →
      to_signed (rom.getD i 0) - to_signed (rom.getD (i + 1) 0) = 28 →
      to_signed (rom.getD (i + 1) 0) - to_signed (rom.getD (i + 2) 0) = -7 →
      to_signed (rom.getD (i + 2) 0) - to_signed (rom.getD (i + 3) 0) = 12 →
      (i, [rom.getD i 0, rom.getD (i + 1) 0, rom.getD (i + 2) 0,
           rom.getD (i + 3) 0]) ∈ search_candidates rom) := by
  refine ⟨?_, search_candidates_pairwise rom, ?_⟩
  · rintro ⟨i, w⟩ hp
    obtain ⟨hlen, hw, -⟩ := (mem_search_candidates rom i w).mp hp
    constructor
    · rw [hw]
      rfl
    · show i < rom.length - 3
      omega
  · intro i hlen h1 h2 h3
    exact (mem_search_candidates rom i _).mpr ⟨hlen, rfl, h1, h2, h3⟩

/-- C9 witness: the matching window `[40, 12, 19, 7]` (signed differences
28, -7, 12) is reported at offset 0. -/
theorem candidate_invariants_witness :
    (0, [40, 12, 19, 7]) ∈ search_candidates [40, 12, 19, 7] :=
  (candidate_invariants [40, 12, 19, 7]).2.2 0 (by decide) (by decide)
    (by decide) (by decide)

/-- C10: the core pipeline is deterministic — two runs of the composed
chain (header detection, candidate scan, per-candidate transform, decode
and normalization, report assembly) on the same ROM bytes produce the same
report string. -/
theorem pipeline_deterministic (rom : List Nat) (out1 out2 : String)
    (h1 : MainRun rom out1) (h2 : MainRun rom out2) : out1 = out2 := by
  cases h1 with
  | run _ p1 c1 hp1 hc1 ho1 =>
    cases h2 with
    | run _ p2 c2 hp2 hc2 ho2 =>
      subst hp1
      subst hp2
      subst hc1
      subst hc2
      subst ho1
      subst ho2
      rfl

/-- C10 witness: two runs on the empty ROM both produce the 0-candidate
report. -/
theorem pipeline_deterministic_witness :
    ("検出された候補数: 0\n" : String) = "検出された候補数: 0\n" :=
  pipeline_deterministic [] _ _
    (MainRun.run [] (detect_header []) (search_candidates (detect_header []))
      _ rfl rfl (by decide))
    (MainRun.run [] (detect_header []) (search_candidates (detect_header []))
      _ rfl rfl (by decide))

end Ydhp
